import Mathlib

/-!
Verification development for the devbox repository.

The Go code is shallowly embedded: pure functions become Lean functions,
external collaborators (the Nix package index, the filesystem, the
package installer, the downloader) become explicit oracles passed in as
record fields, and side effects are recorded as an explicit trace of
effect values in the order the Go code performs them.
-/

set_option autoImplicit false

namespace Devbox

/-- The install/uninstall mode enum from devbox.go (`installMode`). -/
inductive InstallMode where
  | install
  | uninstall
deriving DecidableEq, Repr

/-- An observable side effect performed by a Devbox operation, in order.
`save pkgs` is `saveCfg` writing the config (with the given package list)
to `devbox.json`; `generateShellFiles` is the shell-file generation step;
`nixEnvApply` is `applyDevNixDerivation` running `nix-env --install`;
`updateMessage` is the user-facing message from
`printPackageUpdateMessage`. -/
inductive Eff where
  | save (packages : List String)
  | generateShellFiles
  | nixEnvApply
  | updateMessage (mode : InstallMode) (pkgs : List String)
deriving DecidableEq, Repr

/-- Oracles for the external collaborators of `Devbox.Add` / `Devbox.Remove`:
`pkgExists` is `nix.PkgExists`; `saveErr` / `generateErr` / `installErr`
are the (possible) errors returned by `saveCfg`, `generateShellFiles` and
`applyDevNixDerivation`; `shellEnabled` is `IsDevboxShellEnabled()`. -/
structure DevboxExt where
  pkgExists : String → Bool
  saveErr : Option String
  generateErr : Option String
  installErr : Option String
  shellEnabled : Bool

/-- Result of an Add/Remove operation: the returned error (if any), the
in-memory config package list after the call, and the trace of external
effects performed. -/
structure OpResult where
  err : Option String
  packages : List String
  effects : List Eff
deriving DecidableEq, Repr

/-- The first loop of `Devbox.Add`: check every requested package against
the package index, returning the error for the first unknown one. -/
def validatePackages (pkgExists : String → Bool) : List String → Option String
  | [] => none
  | p :: rest =>
    if pkgExists p then validatePackages pkgExists rest
    else some ("package " ++ p ++ " not found")

/-- The second loop of `Devbox.Add`: append each requested package to the
config package list unless it is already present (`slices.Contains`). -/
def appendPackages (packages : List String) : List String → List String
  | [] => packages
  | p :: rest =>
    appendPackages (if packages.contains p then packages else packages ++ [p]) rest

/-- Modelled from the spec: `pkgslice.Exclude` is not under `src/` (only
its caller `Devbox.Remove` is). The spec says Remove "is a set-difference"
on the package list, so Exclude keeps, in order, the entries of the list
that are not among the excluded ones. -/
def pkgsliceExclude (packages excluded : List String) : List String :=
  packages.filter (fun p => !excluded.contains p)

/-- `Devbox.printPackageUpdateMessage`: reports the update message exactly
when at least one package was named and the devbox shell is enabled. -/
def printPackageUpdateMessage (ext : DevboxExt) (mode : InstallMode)
    (pkgs : List String) : List Eff :=
  if pkgs.length > 0 && ext.shellEnabled then [Eff.updateMessage mode pkgs] else []

/-- `Devbox.ensurePackagesAreInstalled`: generates the shell files, then
runs `applyDevNixDerivation` (`nix-env --install` against the generated
derivation). Both steps are attempted unconditionally; the mode only
changes the printed verb. -/
def ensurePackagesAreInstalled (ext : DevboxExt) (_mode : InstallMode) :
    Option String × List Eff :=
  match ext.generateErr with
  | some e => (some e, [Eff.generateShellFiles])
  | none =>
    match ext.installErr with
    | some e => (some ("apply Nix derivation: " ++ e), [Eff.generateShellFiles, Eff.nixEnvApply])
    | none => (none, [Eff.generateShellFiles, Eff.nixEnvApply])

/-- `Devbox.Add`: validate every requested package against the index; on
the first unknown package return its error with no mutation and no
effects. Otherwise append the missing packages, save the config, ensure
packages are installed, and report the update message. -/
def Add (ext : DevboxExt) (packages pkgs : List String) : OpResult :=
  match validatePackages ext.pkgExists pkgs with
  | some e => ⟨some e, packages, []⟩
  | none =>
    let newPkgs := appendPackages packages pkgs
    match ext.saveErr with
    | some e => ⟨some e, newPkgs, [Eff.save newPkgs]⟩
    | none =>
      match ensurePackagesAreInstalled ext InstallMode.install with
      | (some e, effs) => ⟨some e, newPkgs, Eff.save newPkgs :: effs⟩
      | (none, effs) =>
        ⟨none, newPkgs,
          (Eff.save newPkgs :: effs) ++ printPackageUpdateMessage ext InstallMode.install pkgs⟩

/-- `Devbox.Remove`: exclude the requested packages from the config list
(no index validation), save the config, ensure packages are installed
(uninstall mode), and report the update message. -/
def Remove (ext : DevboxExt) (packages pkgs : List String) : OpResult :=
  let newPkgs := pkgsliceExclude packages pkgs
  match ext.saveErr with
  | some e => ⟨some e, newPkgs, [Eff.save newPkgs]⟩
  | none =>
    match ensurePackagesAreInstalled ext InstallMode.uninstall with
    | (some e, effs) => ⟨some e, newPkgs, Eff.save newPkgs :: effs⟩
    | (none, effs) =>
      ⟨none, newPkgs,
        (Eff.save newPkgs :: effs) ++ printPackageUpdateMessage ext InstallMode.uninstall pkgs⟩

/-- A concrete oracle set whose package index knows only "git", with all
other external calls succeeding and the devbox shell enabled. -/
def extGitOnly : DevboxExt :=
  ⟨fun s => s == "git", none, none, none, true⟩

/-- A concrete oracle set where every external call succeeds and every
package exists in the index. -/
def extAllOk : DevboxExt :=
  ⟨fun _ => true, none, none, none, true⟩

/-- An absolute directory, embedded as its path components listed
deepest-first: "/home/user" is `["user", "home"]` and the filesystem
root "/" is `[]`. With this encoding `filepath.Dir` drops the head. -/
def parentDir (dir : List String) : List String := dir.tail

/-- `findConfigDir` from devbox.go: starting from `dir`, walk upward one
directory at a time; the loop tests each non-root directory for
`devbox.json` (the `fileExists` oracle), and after the loop the root
itself is tested; the first directory found wins, and the error case is
`none`. -/
def findConfigDir (fileExists : List String → Bool) : List String → Option (List String)
  | [] => if fileExists [] then some [] else none
  | d :: rest =>
    if fileExists (d :: rest) then some (d :: rest)
    else findConfigDir fileExists rest

/-- The chain of directories `findConfigDir` visits: the starting
directory, each ancestor in turn, and finally the root. -/
def ancestors : List String → List (List String)
  | [] => [[]]
  | d :: rest => (d :: rest) :: ancestors rest

/-- A concrete existence oracle: the config file is present exactly in
directories at depth at most one. -/
def cfgNearRoot (l : List String) : Bool := decide (l.length ≤ 1)

/-- A lifecycle stage (`plansdk.Stage`): an ordered list of shell command
strings. A stage with an empty command list is absent. -/
structure Stage where
  Command : List String
deriving DecidableEq

/-- The `plansdk.Plan` value: two package lists and the three stage
slots. -/
structure Plan where
  DevPackages : List String
  RuntimePackages : List String
  InstallStage : Stage
  BuildStage : Stage
  StartStage : Stage
deriving DecidableEq

/-- The persisted project `Config` from devbox.go: the package list and
three optional stages (Go nil stage pointers become `none`). -/
structure Config where
  Packages : List String
  InstallStage : Option Stage
  BuildStage : Option Stage
  StartStage : Option Stage
deriving DecidableEq

/-- The per-stage conversion loop inside `Devbox.convertToPlan`: each
plan stage starts as the empty stage and is overwritten with the config
stage commands when the config stage pointer is non-nil. -/
def planStageOf : Option Stage → Stage
  | none => ⟨[]⟩
  | some s => ⟨s.Command⟩

/-- `Devbox.convertToPlan`: builds the user plan from the config — both
package fields are `cfg.Packages`, and each stage goes through
`planStageOf`. -/
def convertToPlan (cfg : Config) : Plan :=
  { DevPackages := cfg.Packages
    RuntimePackages := cfg.Packages
    InstallStage := planStageOf cfg.InstallStage
    BuildStage := planStageOf cfg.BuildStage
    StartStage := planStageOf cfg.StartStage }

/-- Modelled from the spec: package-list merge of `plansdk.MergeUserPlan`,
which is not under `src/` (only its caller `Devbox.BuildPlan` is). The
spec says the merged list is a union preserving user-plan order first,
then the inferred entries not already present. -/
def unionPackages (user inferred : List String) : List String :=
  user ++ inferred.filter (fun p => !user.contains p)

/-- Modelled from the spec: stage merge of `plansdk.MergeUserPlan` —
user override wins when the user stage is non-absent (non-empty command
list), otherwise the inferred stage is used as-is. -/
def mergeStage (user inferred : Stage) : Stage :=
  if user.Command.isEmpty then inferred else user

/-- Modelled from the spec: `plansdk.MergeUserPlan` combines the user
plan with the inferred plan field-wise, packages by union and stages by
user-override. -/
def MergeUserPlan (user inferred : Plan) : Plan :=
  { DevPackages := unionPackages user.DevPackages inferred.DevPackages
    RuntimePackages := unionPackages user.RuntimePackages inferred.RuntimePackages
    InstallStage := mergeStage user.InstallStage inferred.InstallStage
    BuildStage := mergeStage user.BuildStage inferred.BuildStage
    StartStage := mergeStage user.StartStage inferred.StartStage }

/-- A concrete user plan declaring only a build stage. -/
def planMake : Plan := ⟨["go"], [], ⟨[]⟩, ⟨["make"]⟩, ⟨[]⟩⟩

/-- A concrete inferred plan declaring all three stages. -/
def planNpm : Plan :=
  ⟨["nodejs"], ["nodejs"], ⟨["npm install"]⟩, ⟨["npm run build"]⟩, ⟨["npm start"]⟩⟩

/-- A concrete config with one package and no declared stages. -/
def cfgGitOnly : Config := ⟨["git"], none, none, none⟩

/-- The rendering context of the shellrc template (src/nix/shellrc.tmpl):
the original shell init text and its path, the profile bin path to
prepend to PATH, the shell history file, the user hook from devbox.json,
the plan init hook, the plan start-script command, and the directory
holding devbox.json. Go template truthiness on these string fields is
non-emptiness. -/
structure ShellrcContext where
  OriginalInit : String
  OriginalInitPath : String
  PathPrepend : String
  HistoryFile : String
  UserHook : String
  PlanInitHook : String
  ScriptCommand : String
  ConfigDir : String
deriving DecidableEq

/-- The rendered shellrc file, translated node by node from
src/nix/shellrc.tmpl with the Go template whitespace-trim markers
applied. -/
def shellrcRender (c : ShellrcContext) : String :=
  (if c.OriginalInit ≠ "" then
      "# Begin " ++ c.OriginalInitPath ++ "\n\n" ++ c.OriginalInit ++ "\n\n# End "
        ++ c.OriginalInitPath ++ "\n\n"
    else "")
  ++ "# Begin Devbox Post-init Hook\n\nPATH=\"" ++ c.PathPrepend ++ ":$PATH\""
  ++ (if c.HistoryFile ≠ "" then "\nHISTFILE=" ++ c.HistoryFile else "")
  ++ "\n\n# Prepend to the prompt to make it clear we\x27re in a devbox shell.\nexport PS1=\"(devbox) $PS1\"\n\n# End Devbox Post-init Hook"
  ++ (if c.UserHook ≠ "" then
        "\n\n# Begin Devbox User Hook\n\n# Switch to the directory where devbox.json config is\nworkingDir=$(pwd)\ncd "
          ++ c.ConfigDir ++ "\n\n" ++ c.UserHook
          ++ "\n\ncd $workingDir\n\n# End Devbox User Hook"
      else "")
  ++ "\n\n# Begin Plan Init Hook"
  ++ (if c.PlanInitHook ≠ "" then "\n\n" ++ c.PlanInitHook else "")
  ++ "\n\n# End Plan Init Hook\n\n# Begin Script command"
  ++ (if c.ScriptCommand ≠ "" then
        "\n\nfunction run_script \x7b\n    workingDir=$(pwd)\n    cd " ++ c.ConfigDir
          ++ "\n\n    " ++ c.ScriptCommand ++ "\n\n    cd $workingDir\n\x7d"
      else "")
  ++ "\n\n# End Script command\n"

/-- The inherited original shell init block, delimited by comment
markers. -/
def originalInitBlock (c : ShellrcContext) : String :=
  "# Begin " ++ c.OriginalInitPath ++ "\n\n" ++ c.OriginalInit ++ "\n\n# End "
    ++ c.OriginalInitPath ++ "\n\n"

/-- The post-init hook block: prepends the profile bin path to PATH,
optionally sets the history file, and visibly modifies the prompt. -/
def postInitBlock (c : ShellrcContext) : String :=
  "# Begin Devbox Post-init Hook\n\nPATH=\"" ++ c.PathPrepend ++ ":$PATH\""
    ++ (if c.HistoryFile ≠ "" then "\nHISTFILE=" ++ c.HistoryFile else "")
    ++ "\n\n# Prepend to the prompt to make it clear we\x27re in a devbox shell.\nexport PS1=\"(devbox) $PS1\"\n\n# End Devbox Post-init Hook"

/-- The user-declared hook block: the user commands wrapped in a switch
of the working directory to the config directory and back. -/
def userHookBlock (c : ShellrcContext) : String :=
  "\n\n# Begin Devbox User Hook\n\n# Switch to the directory where devbox.json config is\nworkingDir=$(pwd)\ncd "
    ++ c.ConfigDir ++ "\n\n" ++ c.UserHook
    ++ "\n\ncd $workingDir\n\n# End Devbox User Hook"

/-- The plan init hook part, whose begin/end markers are always present
while the hook content itself is conditional. -/
def planInitPart (c : ShellrcContext) : String :=
  "\n\n# Begin Plan Init Hook"
    ++ (if c.PlanInitHook ≠ "" then "\n\n" ++ c.PlanInitHook else "")
    ++ "\n\n# End Plan Init Hook\n\n# Begin Script command"

/-- The run_script shell function: the plan start command wrapped in the
same working-directory switch discipline. -/
def runScriptBlock (c : ShellrcContext) : String :=
  "\n\nfunction run_script \x7b\n    workingDir=$(pwd)\n    cd " ++ c.ConfigDir
    ++ "\n\n    " ++ c.ScriptCommand ++ "\n\n    cd $workingDir\n\x7d"

/-- A filesystem fragment: file contents addressed by path. -/
def FileSys : Type := String → Option String

/-- Writing one rendered output file (a full-file rewrite). -/
def writeFile (fs : FileSys) (path content : String) : FileSys :=
  fun p => if p = path then some content else fs p

/-- Writing a list of rendered output files in order. -/
def writeFiles (fs : FileSys) (outs : List (String × String)) : FileSys :=
  outs.foldl (fun acc pc => writeFile acc pc.1 pc.2) fs

/-- Modelled from the spec: the shell.nix rendering; its template is not
under `src/`, and its exact derivation grammar is owned by the external
package-manager ecosystem. What matters here is that it is a pure text
substitution from the plan. -/
def shellNixRender (plan : Plan) : String :=
  String.intercalate "\n" plan.DevPackages

/-- Modelled from the spec: the development.nix rendering; its template
is not under `src/`. A pure text substitution from the plan package
lists. -/
def developmentNixRender (plan : Plan) : String :=
  String.intercalate "\n" (plan.DevPackages ++ plan.RuntimePackages)

/-- Modelled from the spec: the Dockerfile rendering; its template is
not under `src/`. A pure text substitution from the plan stages. -/
def dockerfileRender (plan : Plan) : String :=
  String.intercalate "\n"
    (plan.InstallStage.Command ++ plan.BuildStage.Command ++ plan.StartStage.Command)

/-- Modelled from the spec: the fixed output set of one `Generate` call
(the `generate` template driver itself is not under `src/`; only its
caller `Devbox.Generate` and the shellrc template are). Each template
maps to a fixed relative output path, and rendering is pure text
substitution from the plan and the generation context. -/
def generateOutputs (plan : Plan) (c : ShellrcContext) : List (String × String) :=
  [(".devbox/gen/shellrc", shellrcRender c),
    (".devbox/gen/shell.nix", shellNixRender plan),
    (".devbox/gen/development.nix", developmentNixRender plan),
    (".devbox/gen/Dockerfile", dockerfileRender plan)]

/-- One `Devbox.Generate` call: a non-incremental full rewrite of the
whole output set onto the filesystem. -/
def runGenerate (fs : FileSys) (plan : Plan) (c : ShellrcContext) : FileSys :=
  writeFiles fs (generateOutputs plan c)

end Devbox

namespace Mutagen

/-- `SessionSpec` from cloud/mutagen/types.go (Go maps become assoc
lists). -/
structure SessionSpec where
  AlphaAddress : String
  AlphaPath : String
  BetaAddress : String
  BetaPath : String
  Name : String
  Labels : List (String × String)
  Paused : Bool
  SyncMode : String
  IgnoreVCS : Bool
deriving DecidableEq

/-- `SessionSpec.Validate`: errors when AlphaPath is empty, then when
BetaPath is empty, and otherwise returns nil. -/
def SessionSpec.Validate (s : SessionSpec) : Option String :=
  if s.AlphaPath = "" then some "alpha path is required"
  else if s.BetaPath = "" then some "beta path is required"
  else none

/-- Observable side effects of the mutagen install path, in order:
`os.MkdirAll` on the install directory, `grab.Get` downloading the URL
into the temp directory, and `Untar` into the install directory. -/
inductive MutagenEff where
  | mkdirAll (dir : String)
  | downloadTo (tmpDir url : String)
  | untarTo (dir : String)
deriving DecidableEq

/-- Oracles for the external collaborators of `InstallMutagenOnce` and
`Install`: `isFile` is the file-existence check, `dirOf` is
`filepath.Dir`, `tempDir` is `os.TempDir()`, the error fields are the
possible failures of `os.MkdirAll`, `grab.Get` (whose success value is
the downloaded file path), `os.Open` and `Untar`, and `goos`/`goarch`
are the Go runtime platform values. -/
structure MutagenEnv where
  isFile : String → Bool
  dirOf : String → String
  tempDir : String
  mkdirErr : Option String
  downloadResult : Except String String
  openErr : Option String
  untarErr : Option String
  goos : String
  goarch : String

/-- `detectPlatform` from install.go. -/
def detectPlatform (env : MutagenEnv) : String := env.goos ++ "_" ++ env.goarch

/-- `mutagenURL` from install.go: the hard-coded v0.16.1 release URL. -/
def mutagenURL (env : MutagenEnv) : String :=
  "https://github.com/mutagen-io/mutagen/releases/download/v0.16.1/mutagen_"
    ++ detectPlatform env ++ "_v0.16.1.tar.gz"

/-- `Install` from cloud/mutagen/install.go: make the install directory,
download the tarball to the temp directory, open it and untar it into the
install directory, stopping at the first failing step. -/
def Install (env : MutagenEnv) (url installDir : String) :
    Option String × List MutagenEff :=
  match env.mkdirErr with
  | some e => (some e, [MutagenEff.mkdirAll installDir])
  | none =>
    match env.downloadResult with
    | Except.error e =>
      (some e, [MutagenEff.mkdirAll installDir, MutagenEff.downloadTo env.tempDir url])
    | Except.ok _tarPath =>
      match env.openErr with
      | some e =>
        (some e, [MutagenEff.mkdirAll installDir, MutagenEff.downloadTo env.tempDir url])
      | none =>
        match env.untarErr with
        | some e =>
          (some e, [MutagenEff.mkdirAll installDir, MutagenEff.downloadTo env.tempDir url,
            MutagenEff.untarTo installDir])
        | none =>
          (none, [MutagenEff.mkdirAll installDir, MutagenEff.downloadTo env.tempDir url,
            MutagenEff.untarTo installDir])

/-- `InstallMutagenOnce` from cloud/mutagen/install.go: if a file already
exists at `binPath` return nil immediately, otherwise install from the
release URL into the parent directory of `binPath`. -/
def InstallMutagenOnce (env : MutagenEnv) (binPath : String) :
    Option String × List MutagenEff :=
  if env.isFile binPath then (none, [])
  else Install env (mutagenURL env) (env.dirOf binPath)

/-- A concrete environment in which the mutagen binary is already
installed at every path. -/
def envInstalled : MutagenEnv :=
  ⟨fun _ => true, fun _ => "", "/tmp", none, Except.ok "/tmp/mutagen.tar.gz",
    none, none, "linux", "amd64"⟩

end Mutagen

namespace Devbox

theorem validatePackages_eq_none_iff (pkgExists : String → Bool) (pkgs : List String) :
    validatePackages pkgExists pkgs = none ↔ ∀ p ∈ pkgs, pkgExists p = true := by
  induction pkgs with
  | nil => simp [validatePackages]
  | cons p rest ih =>
    by_cases h : pkgExists p
    · simp [validatePackages, h, ih]
    · simp [validatePackages, h]

theorem validatePackages_isSome_of_missing (pkgExists : String → Bool)
    (pkgs : List String) (p : String) (hp : p ∈ pkgs) (hmiss : pkgExists p = false) :
    (validatePackages pkgExists pkgs).isSome := by
  cases hv : validatePackages pkgExists pkgs with
  | some e => rfl
  | none =>
    have := (validatePackages_eq_none_iff pkgExists pkgs).mp hv p hp
    rw [hmiss] at this
    exact absurd this (by simp)

theorem contains_iff_mem (l : List String) (a : String) :
    l.contains a = true ↔ a ∈ l := List.elem_iff

theorem appendPackages_eq_self (st : List String) (pkgs : List String)
    (h : ∀ p ∈ pkgs, p ∈ st) : appendPackages st pkgs = st := by
  induction pkgs with
  | nil => rfl
  | cons p rest ih =>
    have hp : st.contains p = true := (contains_iff_mem st p).mpr (h p (by simp))
    simp only [appendPackages, hp, if_pos]
    exact ih (fun q hq => h q (by simp [hq]))

theorem appendPackages_nodup (pkgs : List String) (st : List String)
    (h : st.Nodup) : (appendPackages st pkgs).Nodup := by
  induction pkgs generalizing st with
  | nil => simpa [appendPackages] using h
  | cons p rest ih =>
    simp only [appendPackages]
    by_cases hc : p ∈ st
    · rw [if_pos ((contains_iff_mem st p).mpr hc)]
      exact ih st h
    · rw [if_neg (fun hb => hc ((contains_iff_mem st p).mp hb))]
      apply ih
      rw [List.nodup_append]
      refine ⟨h, List.nodup_singleton p, ?_⟩
      intro a ha hb
      simp only [List.mem_singleton] at hb
      subst hb
      exact hc ha

theorem appendPackages_single_idem (st : List String) (p : String) :
    appendPackages (appendPackages st [p]) [p] = appendPackages st [p] := by
  simp only [appendPackages]
  by_cases hc : p ∈ st
  · rw [if_pos ((contains_iff_mem st p).mpr hc),
      if_pos ((contains_iff_mem st p).mpr hc)]
  · rw [if_neg (fun hb => hc ((contains_iff_mem st p).mp hb)),
      if_pos ((contains_iff_mem (st ++ [p]) p).mpr (by simp))]

theorem Add_packages_eq (ext : DevboxExt) (st pkgs : List String)
    (h : validatePackages ext.pkgExists pkgs = none) :
    (Add ext st pkgs).packages = appendPackages st pkgs := by
  unfold Add
  rw [h]
  cases ext.saveErr with
  | some e => rfl
  | none =>
    rcases hE : ensurePackagesAreInstalled ext InstallMode.install with ⟨e, effs⟩
    cases e <;> simp [hE]

theorem Add_packages_eq_of_invalid (ext : DevboxExt) (st pkgs : List String)
    (e : String) (h : validatePackages ext.pkgExists pkgs = some e) :
    (Add ext st pkgs).packages = st := by
  unfold Add
  rw [h]

/-- C1: Add is all-or-nothing. If any requested package identifier is
unknown to the package index, `Devbox.Add` returns an error, the config
package list is exactly what it was before the call, and no external
effect is performed (in particular the config is not saved and nothing is
installed). -/
theorem add_all_or_nothing (ext : DevboxExt) (packages pkgs : List String)
    (p : String) (hp : p ∈ pkgs) (hmiss : ext.pkgExists p = false) :
    (Add ext packages pkgs).err.isSome = true ∧
    (Add ext packages pkgs).packages = packages ∧
    (Add ext packages pkgs).effects = [] := by
  have hv := validatePackages_isSome_of_missing ext.pkgExists pkgs p hp hmiss
  unfold Add
  cases hvv : validatePackages ext.pkgExists pkgs with
  | some e => simp
  | none => rw [hvv] at hv; simp at hv

theorem add_all_or_nothing_witness :
    "nopkg" ∈ ["git", "nopkg"] ∧ extGitOnly.pkgExists "nopkg" = false ∧
    ((Add extGitOnly ["curl"] ["git", "nopkg"]).err.isSome = true ∧
     (Add extGitOnly ["curl"] ["git", "nopkg"]).packages = ["curl"] ∧
     (Add extGitOnly ["curl"] ["git", "nopkg"]).effects = []) :=
  ⟨by decide, by decide,
    add_all_or_nothing extGitOnly ["curl"] ["git", "nopkg"] "nopkg" (by decide) (by decide)⟩

/-- C3: Add is idempotent per package and preserves the no-duplicates
invariant of the config package list: adding `p` twice in sequence leaves
the same package list as adding it once, and after any Add call on a
duplicate-free list the list is still duplicate-free. -/
theorem add_idempotent_and_nodup (ext : DevboxExt) (st : List String)
    (p : String) (pkgs : List String) (h : st.Nodup) :
    (Add ext (Add ext st [p]).packages [p]).packages = (Add ext st [p]).packages ∧
    ((Add ext st pkgs).packages).Nodup := by
  constructor
  · cases hv : validatePackages ext.pkgExists [p] with
    | some e =>
      rw [Add_packages_eq_of_invalid ext st [p] e hv,
        Add_packages_eq_of_invalid ext st [p] e hv]
    | none =>
      rw [Add_packages_eq ext st [p] hv, Add_packages_eq ext _ [p] hv,
        appendPackages_single_idem]
  · cases hv : validatePackages ext.pkgExists pkgs with
    | some e => rw [Add_packages_eq_of_invalid ext st pkgs e hv]; exact h
    | none => rw [Add_packages_eq ext st pkgs hv]; exact appendPackages_nodup pkgs st h

theorem add_idempotent_and_nodup_witness :
    ([] : List String).Nodup ∧
    ((Add extGitOnly (Add extGitOnly [] ["git"]).packages ["git"]).packages =
        (Add extGitOnly [] ["git"]).packages ∧
      ((Add extGitOnly [] ["git"]).packages).Nodup) :=
  ⟨by decide, add_idempotent_and_nodup extGitOnly [] "git" ["git"] (by decide)⟩

/-- C2 counterexample: `Add("git")` on a config already holding "git",
and `Remove("nonexistent")` on that same config, both still invoke the
external package-installation step (`nix-env` via
`ensurePackagesAreInstalled`), contrary to the claim that no
install/uninstall side effect is triggered for such calls. -/
theorem add_remove_noop_cex :
    Eff.nixEnvApply ∈ (Add extAllOk ["git"] ["git"]).effects ∧
    Eff.nixEnvApply ∈ (Remove extAllOk ["git"] ["nonexistent"]).effects := by
  decide

theorem pkgsliceExclude_eq_self (st excluded : List String)
    (h : ∀ p ∈ excluded, p ∉ st) : pkgsliceExclude st excluded = st := by
  apply List.filter_eq_self.mpr
  intro a ha
  simp only [Bool.not_eq_true']
  cases hc : excluded.contains a with
  | false => rfl
  | true => exact absurd ha (h a ((contains_iff_mem excluded a).mp hc))

/-- C2 amended: when every package requested by Add is already present
(and known to the index), or every package requested by Remove is already
absent, the operation succeeds and leaves the config package list exactly
unchanged, still saves the config and still reports the update message —
but the external package-installation step (shell-file generation plus
`nix-env` apply) is still invoked unconditionally. -/
theorem add_remove_noop_amended (ext : DevboxExt) (st pkgsIn pkgsOut : List String)
    (hsave : ext.saveErr = none) (hgen : ext.generateErr = none)
    (hins : ext.installErr = none)
    (hvalid : ∀ p ∈ pkgsIn, ext.pkgExists p = true)
    (hmem : ∀ p ∈ pkgsIn, p ∈ st)
    (habs : ∀ p ∈ pkgsOut, p ∉ st) :
    Add ext st pkgsIn =
      ⟨none, st, [Eff.save st, Eff.generateShellFiles, Eff.nixEnvApply] ++
        printPackageUpdateMessage ext InstallMode.install pkgsIn⟩ ∧
    Remove ext st pkgsOut =
      ⟨none, st, [Eff.save st, Eff.generateShellFiles, Eff.nixEnvApply] ++
        printPackageUpdateMessage ext InstallMode.uninstall pkgsOut⟩ := by
  have hv : validatePackages ext.pkgExists pkgsIn = none :=
    (validatePackages_eq_none_iff ext.pkgExists pkgsIn).mpr hvalid
  have happ : appendPackages st pkgsIn = st := appendPackages_eq_self st pkgsIn hmem
  have hexc : pkgsliceExclude st pkgsOut = st := pkgsliceExclude_eq_self st pkgsOut habs
  constructor
  · unfold Add
    rw [hv, hsave]
    simp [ensurePackagesAreInstalled, hgen, hins, happ]
  · unfold Remove
    rw [hexc, hsave]
    simp [ensurePackagesAreInstalled, hgen, hins]

theorem add_remove_noop_amended_witness :
    Add extAllOk ["git"] ["git"] =
      ⟨none, ["git"], [Eff.save ["git"], Eff.generateShellFiles, Eff.nixEnvApply] ++
        printPackageUpdateMessage extAllOk InstallMode.install ["git"]⟩ ∧
    Remove extAllOk ["git"] ["nonexistent"] =
      ⟨none, ["git"], [Eff.save ["git"], Eff.generateShellFiles, Eff.nixEnvApply] ++
        printPackageUpdateMessage extAllOk InstallMode.uninstall ["nonexistent"]⟩ :=
  add_remove_noop_amended extAllOk ["git"] ["git"] ["nonexistent"]
    rfl rfl rfl (by decide) (by decide) (by decide)

theorem mem_ancestors_length_le (dir a : List String) (ha : a ∈ ancestors dir) :
    a.length ≤ dir.length := by
  induction dir with
  | nil =>
    simp only [ancestors, List.mem_singleton] at ha
    subst ha
    exact Nat.le_refl _
  | cons d rest ih =>
    simp only [ancestors, List.mem_cons] at ha
    rcases ha with rfl | ha
    · exact Nat.le_refl _
    · exact Nat.le_trans (ih ha) (by simp)

/-- C4: opening an environment fails with not-found exactly when no
devbox.json exists in the starting directory or any ancestor up to and
including the root; the walk goes upward one directory at a time, the
first (deepest) directory containing the file is returned, and failure is
reported only once every ancestor, root included, has been tested. -/
theorem findConfigDir_correct (f : List String → Bool) (dir : List String) :
    (findConfigDir f dir = none ↔ ∀ a ∈ ancestors dir, f a = false) ∧
    (∀ d, findConfigDir f dir = some d →
      d ∈ ancestors dir ∧ f d = true ∧
      ∀ a ∈ ancestors dir, d.length < a.length → f a = false) := by
  induction dir with
  | nil =>
    constructor
    · cases hf : f [] <;> simp [findConfigDir, ancestors, hf]
    · intro d hd
      cases hf : f [] <;> simp only [findConfigDir, hf] at hd
      · simp at hd
      · simp only [if_true, Option.some.injEq] at hd
        subst hd
        refine ⟨by simp [ancestors], hf, ?_⟩
        intro a ha hlen
        simp only [ancestors, List.mem_singleton] at ha
        subst ha
        simp at hlen
  | cons x rest ih =>
    cases hf : f (x :: rest) with
    | true =>
      constructor
      · constructor
        · intro h
          rw [findConfigDir, if_pos hf] at h
          exact absurd h (by simp)
        · intro h
          exact absurd (h (x :: rest) (by simp [ancestors])) (by simp [hf])
      · intro d hd
        rw [findConfigDir, if_pos hf, Option.some.injEq] at hd
        subst hd
        refine ⟨by simp [ancestors], hf, ?_⟩
        intro a ha hlen
        exact absurd (mem_ancestors_length_le _ a ha) (by omega)
    | false =>
      have hstep : findConfigDir f (x :: rest) = findConfigDir f rest := by
        rw [findConfigDir, if_neg (by simp [hf])]
      constructor
      · constructor
        · intro h a ha
          simp only [ancestors, List.mem_cons] at ha
          rcases ha with rfl | ha
          · exact hf
          · exact (ih.1.mp (hstep ▸ h)) a ha
        · intro h
          rw [hstep]
          exact ih.1.mpr (fun a ha => h a (by simp [ancestors, ha]))
      · intro d hd
        rw [hstep] at hd
        obtain ⟨hmem, hfd, hdeep⟩ := ih.2 d hd
        refine ⟨by simp only [ancestors, List.mem_cons]; exact Or.inr hmem, hfd, ?_⟩
        intro a ha hlen
        simp only [ancestors, List.mem_cons] at ha
        rcases ha with rfl | ha
        · exact hf
        · exact hdeep a ha hlen

theorem findConfigDir_correct_witness :
    ["home"] ∈ ancestors ["user", "home"] ∧ cfgNearRoot ["home"] = true :=
  ⟨((findConfigDir_correct cfgNearRoot ["user", "home"]).2 ["home"] (by decide)).1,
    ((findConfigDir_correct cfgNearRoot ["user", "home"]).2 ["home"] (by decide)).2.1⟩

/-- C5: merge override law. For every user plan U and inferred plan I,
each stage slot of the merged plan equals the stage of U exactly when U
declares it non-absent, regardless of the stage content of I, and equals
the stage of I as-is otherwise. -/
theorem merge_override_law (U I : Plan) :
    (U.InstallStage.Command ≠ [] → (MergeUserPlan U I).InstallStage = U.InstallStage) ∧
    (U.BuildStage.Command ≠ [] → (MergeUserPlan U I).BuildStage = U.BuildStage) ∧
    (U.StartStage.Command ≠ [] → (MergeUserPlan U I).StartStage = U.StartStage) ∧
    (U.InstallStage.Command = [] → (MergeUserPlan U I).InstallStage = I.InstallStage) ∧
    (U.BuildStage.Command = [] → (MergeUserPlan U I).BuildStage = I.BuildStage) ∧
    (U.StartStage.Command = [] → (MergeUserPlan U I).StartStage = I.StartStage) := by
  refine ⟨?_, ?_, ?_, ?_, ?_, ?_⟩ <;> intro h <;>
    simp [MergeUserPlan, mergeStage, List.isEmpty_iff, h]

theorem merge_override_law_witness :
    (MergeUserPlan planMake planNpm).BuildStage = planMake.BuildStage ∧
    (MergeUserPlan planMake planNpm).InstallStage = planNpm.InstallStage :=
  ⟨(merge_override_law planMake planNpm).2.1 (by decide),
    (merge_override_law planMake planNpm).2.2.2.1 (by decide)⟩

/-- C9: in the user plan built from a Config, DevPackages and
RuntimePackages are the identical list (both the config package list),
and a nil config stage maps to an absent stage (empty command list) in
the resulting plan. -/
theorem convertToPlan_correct (cfg : Config) :
    (convertToPlan cfg).DevPackages = cfg.Packages ∧
    (convertToPlan cfg).RuntimePackages = (convertToPlan cfg).DevPackages ∧
    (cfg.InstallStage = none → (convertToPlan cfg).InstallStage.Command = []) ∧
    (cfg.BuildStage = none → (convertToPlan cfg).BuildStage.Command = []) ∧
    (cfg.StartStage = none → (convertToPlan cfg).StartStage.Command = []) := by
  refine ⟨rfl, rfl, ?_, ?_, ?_⟩ <;> intro h <;> simp [convertToPlan, planStageOf, h]

theorem convertToPlan_correct_witness :
    (convertToPlan cfgGitOnly).DevPackages = cfgGitOnly.Packages ∧
    (convertToPlan cfgGitOnly).InstallStage.Command = [] :=
  ⟨(convertToPlan_correct cfgGitOnly).1, (convertToPlan_correct cfgGitOnly).2.2.1 rfl⟩

/-- C6: the rendered shellrc splits into its blocks: the post-init hook
block (PATH prepend, optional history file, prompt change) is present
unconditionally; the user hook block appears exactly when the user hook
string is non-empty, and the run_script function exactly when the plan
script command is non-empty — and both of those wrap their commands in a
working-directory switch to the config directory and back, as spelled
out by `userHookBlock` and `runScriptBlock`. -/
theorem shellrc_blocks (c : ShellrcContext) :
    shellrcRender c =
      (if c.OriginalInit ≠ "" then originalInitBlock c else "")
        ++ postInitBlock c
        ++ (if c.UserHook ≠ "" then userHookBlock c else "")
        ++ planInitPart c
        ++ (if c.ScriptCommand ≠ "" then runScriptBlock c else "")
        ++ "\n\n# End Script command\n" := by
  unfold shellrcRender originalInitBlock postInitBlock userHookBlock planInitPart
    runScriptBlock
  split_ifs <;>
    simp only [String.append_assoc, String.append_empty, String.empty_append]

theorem writeFiles_not_key (outs : List (String × String)) (fs : FileSys) (p : String)
    (h : p ∉ outs.map Prod.fst) : writeFiles fs outs p = fs p := by
  induction outs generalizing fs with
  | nil => rfl
  | cons kv t ih =>
    simp only [List.map_cons, List.mem_cons, not_or] at h
    have hstep : writeFiles fs (kv :: t) p = writeFiles (writeFile fs kv.1 kv.2) t p := rfl
    rw [hstep, ih _ h.2, writeFile, if_neg h.1]

theorem writeFiles_key_indep (outs : List (String × String)) (p : String)
    (h : p ∈ outs.map Prod.fst) (fs fs' : FileSys) :
    writeFiles fs outs p = writeFiles fs' outs p := by
  induction outs generalizing fs fs' with
  | nil => simp at h
  | cons kv t ih =>
    have e1 : writeFiles fs (kv :: t) p = writeFiles (writeFile fs kv.1 kv.2) t p := rfl
    have e2 : writeFiles fs' (kv :: t) p = writeFiles (writeFile fs' kv.1 kv.2) t p := rfl
    rw [e1, e2]
    by_cases ht : p ∈ t.map Prod.fst
    · exact ih ht _ _
    · simp only [List.map_cons, List.mem_cons] at h
      rcases h with h | h
      · rw [writeFiles_not_key t _ p ht, writeFiles_not_key t _ p ht]
        simp [writeFile, h]
      · exact absurd h ht

/-- C7: generation is idempotent — for every plan, generation context
and starting filesystem, running Generate a second time with the same
plan and context leaves every output file byte-identical to the first
run (the whole filesystem after the second run equals the one after the
first). -/
theorem generate_idempotent (fs : FileSys) (plan : Plan) (c : ShellrcContext) :
    runGenerate (runGenerate fs plan c) plan c = runGenerate fs plan c := by
  funext p
  by_cases h : p ∈ (generateOutputs plan c).map Prod.fst
  · exact writeFiles_key_indep _ p h _ _
  · exact writeFiles_not_key _ _ p h

end Devbox

namespace Mutagen

/-- C8: session-config validation fails exactly when a required path
field is empty: Validate returns an error if and only if AlphaPath or
BetaPath is the empty string, regardless of all other fields. -/
theorem sessionSpec_validate_iff (s : SessionSpec) :
    (s.Validate).isSome = true ↔ (s.AlphaPath = "" ∨ s.BetaPath = "") := by
  unfold SessionSpec.Validate
  by_cases h1 : s.AlphaPath = "" <;> by_cases h2 : s.BetaPath = "" <;> simp [h1, h2]

/-- C10: InstallMutagenOnce is a no-op when the tool is already
installed: if a file exists at binPath it returns nil immediately, with
no directory creation, no download and no untar. -/
theorem installMutagenOnce_noop (env : MutagenEnv) (binPath : String)
    (h : env.isFile binPath = true) :
    InstallMutagenOnce env binPath = (none, []) := by
  unfold InstallMutagenOnce
  rw [if_pos h]

theorem installMutagenOnce_noop_witness :
    InstallMutagenOnce envInstalled "/usr/local/bin/mutagen" = (none, []) :=
  installMutagenOnce_noop envInstalled "/usr/local/bin/mutagen" rfl

end Mutagen
